import Mathlib

/-!
# nginx-random-access-log-generator: a shallow embedding of `main.go`

The generator draws, per record, a scheme, a status and a cache result from three weighted
choosers, a host name from `randHost`, a byte count from `randBytesSent`, and writes one
structured log record.  This file embeds the functions of `main.go` as Lean definitions and
proves properties of them.

Modelling conventions.

* Go `int` and `uint64` values are `Int` and `Nat`; `uint64` multiplication wraps with an
  explicit `% 2 ^ 64`.
* A Go result pair `(value, error)` is a Lean pair whose second component is an `Option`:
  `none` is the `nil` error.
* The integer source (`randutil.Intner`) is stateful; its state is threaded explicitly.
* The package-level table `facts` is threaded explicitly as well.
* Runtime panics (index out of range, failed type assertion) are the `error` side of `Except`.
* `float64` values are modelled by the rational they denote (or an infinity, or NaN).  The
  arithmetic operations are parameters (`Float64Ops`); only the facts of IEEE-754 that a proof
  needs are assumed, as `Float64Ops.Lawful`.  The conversions `int(f)` and `uint64(f)` discard
  the fraction, as the Go specification prescribes.
-/

namespace AccessLog

/-! ## Runtime panics and interface values -/

/-- Runtime panics that the embedded code can raise. -/
inductive GoPanic
  | indexOutOfRange
  | interfaceConversion
  deriving DecidableEq, Repr

/-- Values of type `interface{}` as they occur in `main.go`: the items of the three choice
lists are strings and ints; `nil` is the zero interface value. -/
inductive Iface
  | nil
  | str (s : String)
  | int (i : Int)
  deriving DecidableEq, Repr

/-- The type assertion `x.(string)` in its one-result form: it panics unless the dynamic type
is `string`. -/
def Iface.assertString : Iface → Except GoPanic String
  | .str s => .ok s
  | _ => .error .interfaceConversion

/-- The type assertion `x.(int)` in its one-result form. -/
def Iface.assertInt : Iface → Except GoPanic Int
  | .int i => .ok i
  | _ => .error .interfaceConversion

/-! ## float64 -/

/-- A `float64` value, by the real number it denotes.  Every finite binary64 value is a
rational (`IsBinary64` says which rationals occur), so statements over all `finite q` cover
every finite `float64`. -/
inductive Float64
  | finite (q : ℚ)
  | posInf
  | negInf
  | nan
  deriving DecidableEq

/-- Discarding the fraction of a rational (truncation toward zero). -/
def truncate (q : ℚ) : Int :=
  if 0 ≤ q then ⌊q⌋ else ⌈q⌉

/-- The rationals that are finite binary64 values: a significand below `2 ^ 53` scaled by a
power of two between `2 ^ (-1074)` and `2 ^ 971`. -/
def IsBinary64 (q : ℚ) : Prop :=
  ∃ m e : Int, |m| < 2 ^ 53 ∧ -1074 ≤ e ∧ e ≤ 971 ∧ q = m * (2 : ℚ) ^ e

/-- The `float64` operations that `main.go` uses.  `intOverflow` and `uint64Overflow` give the
implementation-dependent result of a conversion whose operand has no value in the target type. -/
structure Float64Ops where
  ofInt : Int → Float64
  add : Float64 → Float64 → Float64
  mul : Float64 → Float64 → Float64
  div : Float64 → Float64 → Float64
  pow : Float64 → Float64 → Float64
  intOverflow : Float64 → Int
  uint64Overflow : Float64 → Nat

/-- The conversion `int(f)` on a 64-bit platform. -/
def Float64Ops.toInt (ops : Float64Ops) : Float64 → Int
  | .finite q =>
    if -(2 ^ 63) ≤ truncate q ∧ truncate q < 2 ^ 63 then truncate q
    else ops.intOverflow (.finite q)
  | f => ops.intOverflow f

/-- The conversion `uint64(f)`. -/
def Float64Ops.toUint64 (ops : Float64Ops) : Float64 → Nat
  | .finite q =>
    if 0 ≤ truncate q ∧ truncate q < 2 ^ 64 then (truncate q).toNat
    else ops.uint64Overflow (.finite q)
  | f => ops.uint64Overflow f

/-- The facts of IEEE-754 arithmetic used below: converting an integer of magnitude at most
`2 ^ 53` is exact, and a quotient of binary64 values that stays below the overflow threshold is
a finite value at least as close to the real quotient as every binary64 value. -/
structure Float64Ops.Lawful (ops : Float64Ops) : Prop where
  ofInt_exact : ∀ i : Int, |i| ≤ 2 ^ 53 → ops.ofInt i = .finite i
  div_nearest : ∀ a b : ℚ, IsBinary64 a → IsBinary64 b → b ≠ 0 → |a / b| ≤ 2 ^ 1023 →
    ∃ r : ℚ, ops.div (.finite a) (.finite b) = .finite r ∧
      ∀ c : ℚ, IsBinary64 c → |r - a / b| ≤ |c - a / b|

/-! ## The integer source and the choosers -/

/-- The interface `randutil.Intner`: `Intn n` draws an integer, or fails with an error. -/
structure Intner (σ ε : Type) where
  Intn : Int → σ → (Int × Option ε) × σ

/-- A `*randutil.Chooser` as `main.go` sees it: `Choose` returns an item and an error. -/
structure Chooser (σ ε : Type) where
  Choose : σ → (Iface × Option ε) × σ

/-! ## `normRand` -/

/-- The function `normRand`; `draw` is the value returned by `rand.NormFloat64()`. -/
def normRand (ops : Float64Ops) (draw : Float64) (min max : Int) (mean stdDev : Float64) : Int :=
  let r := ops.toInt (ops.add (ops.mul draw stdDev) mean)
  if r < min then min
  else if max < r then max
  else r

/-! ## `randHost` -/

/-- The verb `%d` of `fmt.Sprintf` applied to an `int`. -/
def formatDecimal : Int → String
  | .ofNat n => Nat.repr n
  | .negSucc n => "-" ++ Nat.repr (n + 1)

/-- The function `randHost`. -/
def randHost {σ ε : Type} (intner : Intner σ ε) (siteCount : Int) (s : σ) :
    (String × Option ε) × σ :=
  let d := intner.Intn siteCount s
  match d.1.2 with
  | some err => (("", some err), d.2)
  | none => ((formatDecimal d.1.1 ++ ".example.jp", none), d.2)

/-! ## `factorialMemoization` -/

/-- The package-level array `facts [120]uint64`. -/
abbrev Facts := Fin 120 → Nat

/-- The zero value of `facts`, its content when the program starts. -/
def factsInit : Facts := fun _ => 0

/-- The function `factorialMemoization`.  Indexing `facts[n]` panics when `120 ≤ n`; the product
is a `uint64` product.  The function body contains no assignment to `facts`, so the table that
comes back is the one the recursive call left. -/
def factorialMemoization (facts : Facts) (n : Nat) : Except GoPanic (Nat × Facts) :=
  if h : n < 120 then
    if facts ⟨n, h⟩ ≠ 0 then
      .ok (facts ⟨n, h⟩, facts)
    else
      match n with
      | m + 1 =>
        match factorialMemoization facts m with
        | .ok (r, facts') => .ok ((m + 1) * r % 2 ^ 64, facts')
        | .error p => .error p
      | 0 => .ok (1, facts)
  else
    .error .indexOutOfRange

/-! ## `randBytesSent` -/

/-- The function `randBytesSent`. -/
def randBytesSent {σ ε : Type} (ops : Float64Ops) (intner : Intner σ ε) (bytesSentMax : Int)
    (s : σ) (facts : Facts) : Except GoPanic ((Int × Option ε) × σ × Facts) :=
  let d := intner.Intn 12000 s
  match d.1.2 with
  | some err => .ok ((0, some err), d.2, facts)
  | none =>
    let x := ops.div (ops.ofInt d.1.1) (.finite 800)
    let lambda : Float64 := .finite 4
    match factorialMemoization facts (ops.toUint64 x) with
    | .error p => .error p
    | .ok (f, facts') =>
      let y := ops.div (ops.pow lambda x) (ops.ofInt f)
      let bytesSent := ops.toInt (ops.mul (ops.div y (.finite 12)) (ops.ofInt bytesSentMax))
      if bytesSent < 0 then .ok ((0, none), d.2, facts')
      else if bytesSentMax < bytesSent then .ok ((bytesSentMax, none), d.2, facts')
      else .ok ((bytesSent, none), d.2, facts')

/-! ## The record-emission loop of `main` -/

/-- The fields of one `logger.Info` call. -/
structure Record where
  host : String
  http_host : String
  scheme : String
  status : Int
  bytes_sent : Int
  sent_http_x_cache : String
  deriving DecidableEq, Repr

/-- What the loop writes to the logger. -/
inductive LogEntry (ε : Type)
  | error (err : ε)
  | info (r : Record)
  deriving DecidableEq

/-- The statement `if err != nil { logger.Error("", zap.Error(err)) }`. -/
def logIfErr {ε : Type} : Option ε → List (LogEntry ε)
  | some err => [.error err]
  | none => []

/-- What the loop of `main` reads: the flags, the integer source and the three choosers. -/
structure Generator (σ ε : Type) where
  ops : Float64Ops
  intner : Intner σ ε
  statusChooser : Chooser σ ε
  schemeChooser : Chooser σ ε
  cacheChooser : Chooser σ ε
  bytesSentMax : Int
  siteCount : Int

/-- The draw `schemeChooser.Choose()` of an iteration that starts in state `s`. -/
def schemeDraw {σ ε : Type} (g : Generator σ ε) (s : σ) : (Iface × Option ε) × σ :=
  g.schemeChooser.Choose s

/-- The draw `statusChooser.Choose()` of an iteration that starts in state `s`. -/
def statusDraw {σ ε : Type} (g : Generator σ ε) (s : σ) : (Iface × Option ε) × σ :=
  g.statusChooser.Choose (schemeDraw g s).2

/-- The draw `cacheChooser.Choose()` of an iteration that starts in state `s`. -/
def cacheDraw {σ ε : Type} (g : Generator σ ε) (s : σ) : (Iface × Option ε) × σ :=
  g.cacheChooser.Choose (statusDraw g s).2

/-- The call `randHost(intner, siteCount)` of an iteration that starts in state `s`. -/
def hostDraw {σ ε : Type} (g : Generator σ ε) (s : σ) : (String × Option ε) × σ :=
  randHost g.intner g.siteCount (cacheDraw g s).2

/-- The call `randBytesSent(intner, bytesSentMax)` of an iteration that starts in state `s`. -/
def bytesSentDraw {σ ε : Type} (g : Generator σ ε) (s : σ) (facts : Facts) :
    Except GoPanic ((Int × Option ε) × σ × Facts) :=
  randBytesSent g.ops g.intner g.bytesSentMax (hostDraw g s).2 facts

/-- One iteration of the `for` loop of `main`: the log entries it writes, and either the state
it leaves or the panic that ends the program.  The arguments of `logger.Info` are evaluated
after the five draws; the three type assertions are among them. -/
def loopBody {σ ε : Type} (g : Generator σ ε) (s : σ) (facts : Facts) :
    List (LogEntry ε) × Except GoPanic (σ × Facts) :=
  let scheme := schemeDraw g s
  let status := statusDraw g s
  let cache := cacheDraw g s
  let host := hostDraw g s
  let log4 := logIfErr scheme.1.2 ++ logIfErr status.1.2 ++ logIfErr cache.1.2 ++
    logIfErr host.1.2
  match bytesSentDraw g s facts with
  | .error p => (log4, .error p)
  | .ok ((bytesSent, err), s5, facts5) =>
    let log5 := log4 ++ logIfErr err
    match scheme.1.1.assertString, status.1.1.assertInt, cache.1.1.assertString with
    | .ok sch, .ok st, .ok c =>
      (log5 ++ [.info ⟨host.1.1, host.1.1, sch, st, bytesSent, c⟩], .ok (s5, facts5))
    | _, _, _ => (log5, .error .interfaceConversion)

/-- The loop `for i := 0; i < n; i++` of `main` (`n` is 100 there): it ends early only by a
panic. -/
def emitLoop {σ ε : Type} (g : Generator σ ε) :
    Nat → σ → Facts → List (LogEntry ε) × Except GoPanic (σ × Facts)
  | 0, s, facts => ([], .ok (s, facts))
  | n + 1, s, facts =>
    match loopBody g s facts with
    | (log, .error p) => (log, .error p)
    | (log, .ok (s', facts')) =>
      let rest := emitLoop g n s' facts'
      (log ++ rest.1, rest.2)

/-! ## The specification's wording of `normRand` -/

/-- Rounding to the nearest integer (halves upward). -/
def roundNearest (q : ℚ) : Int := ⌊q + 1 / 2⌋

/-- Clamping into `[lo, hi]`. -/
def clamp (r lo hi : Int) : Int := Max.max lo (Min.min r hi)

/-- The sampler as the specification words it: round the drawn value to the nearest integer,
then clamp. -/
def normRandSpec (min max : Int) (d : ℚ) : Int := clamp (roundNearest d) min max

/-! ## Concrete instances -/

/-- Exact arithmetic on the denoted rationals.  It agrees with binary64 arithmetic wherever the
exact result is a binary64 value; `pow` is evaluated at the integer part of the exponent. -/
def exactOps : Float64Ops where
  ofInt i := .finite i
  add a b := match a, b with
    | .finite p, .finite q => .finite (p + q)
    | _, _ => .nan
  mul a b := match a, b with
    | .finite p, .finite q => .finite (p * q)
    | _, _ => .nan
  div a b := match a, b with
    | .finite p, .finite q => if q = 0 then .nan else .finite (p / q)
    | _, _ => .nan
  pow a b := match a, b with
    | .finite p, .finite q => .finite (p ^ (truncate q).toNat)
    | _, _ => .nan
  intOverflow _ := -(2 ^ 63)
  uint64Overflow _ := 2 ^ 63

/-- An integer source without state that returns `v` for every draw. -/
def constIntner (v : Int) : Intner Unit String where
  Intn _ s := ((v, none), s)

/-- An integer source without state whose every draw fails. -/
def failingIntner (msg : String) : Intner Unit String where
  Intn _ s := ((0, some msg), s)

/-- A chooser that returns `item` on every call. -/
def constChooser (item : Iface) : Chooser Unit String where
  Choose s := ((item, none), s)

/-- A chooser whose integer source fails: `Choose` returns the nil item and the error. -/
def failingChooser (msg : String) : Chooser Unit String where
  Choose s := ((.nil, some msg), s)

/-- A run configuration in which only the scheme draw fails. -/
def schemeFailure : Generator Unit String where
  ops := exactOps
  intner := constIntner 0
  statusChooser := constChooser (.int 200)
  schemeChooser := failingChooser "entropy source failed"
  cacheChooser := constChooser (.str "HIT")
  bytesSentMax := 10000000
  siteCount := 10000

/-- The binary64 value nearest to 0.6. -/
def sixTenths : ℚ := 5404319552844595 / 2 ^ 53

/-! ## Facts about `factorialMemoization` -/

/-- Once the table is all zero, a call returns the factorial reduced modulo `2 ^ 64` and
leaves the table all zero. -/
theorem factorialMemoization_init (n : Nat) (hn : n < 120) :
    factorialMemoization factsInit n = .ok (n.factorial % 2 ^ 64, factsInit) := by
  induction n with
  | zero =>
    rw [factorialMemoization]
    simp [factsInit]
  | succ m ih =>
    rw [factorialMemoization]
    simp only [hn, dite_true, factsInit, ne_eq, not_true_eq_false, ite_false]
    rw [ih (by omega)]
    simp only [Nat.factorial_succ]
    rw [Nat.mul_mod_mod]

/-- A call never changes the table, whatever the table holds. -/
theorem factorialMemoization_frame (facts : Facts) (n : Nat) (r : Nat) (facts' : Facts)
    (h : factorialMemoization facts n = .ok (r, facts')) : facts' = facts := by
  induction n generalizing r facts' with
  | zero =>
    rw [factorialMemoization] at h
    simp only [Nat.lt_add_one_iff, Nat.zero_le, dite_true] at h
    split at h <;> simp_all
  | succ m ih =>
    rw [factorialMemoization] at h
    split at h
    · split at h
      · simp_all
      · cases hrec : factorialMemoization facts m with
        | error p => simp [hrec] at h
        | ok res =>
          obtain ⟨r0, f0⟩ := res
          simp only [hrec] at h
          have := ih r0 f0 hrec
          simp_all
    · simp at h

/-- The factorials that fit in a `uint64` are those of the arguments up to 20. -/
theorem factorial_lt_two_pow_64_iff (n : Nat) : n.factorial < 2 ^ 64 ↔ n ≤ 20 := by
  constructor
  · intro h
    by_contra hc
    have h21 : Nat.factorial 21 ≤ n.factorial := Nat.factorial_le (by omega)
    have : ¬ Nat.factorial 21 < 2 ^ 64 := by decide
    omega
  · intro h
    have h20 : n.factorial ≤ Nat.factorial 20 := Nat.factorial_le h
    have : Nat.factorial 20 < 2 ^ 64 := by decide
    omega

/-! ## Facts about the conversions -/

/-- A non-negative rational in `[k, k + 1)` has integer part `k`. -/
theorem truncate_eq_of_mem_Ico (r : ℚ) (k : Int) (hk : 0 ≤ k) (h1 : (k : ℚ) ≤ r)
    (h2 : r < k + 1) : truncate r = k := by
  have h0 : (0 : ℚ) ≤ r := le_trans (by exact_mod_cast hk) h1
  simp only [truncate, h0, if_true]
  exact Int.floor_eq_iff.mpr ⟨h1, h2⟩

/-- Integers of magnitude below `2 ^ 53` are binary64 values. -/
theorem isBinary64_intCast (i : Int) (hi : |i| < 2 ^ 53) : IsBinary64 (i : ℚ) :=
  ⟨i, 0, hi, by norm_num, by norm_num, by simp⟩

/-- A binary64 quotient `float64(v) / 800` with `0 ≤ v < 12000` has integer part `v / 800`. -/
theorem div_800_truncate (ops : Float64Ops) (hops : ops.Lawful) (v : Int) (h0 : 0 ≤ v)
    (h1 : v < 12000) :
    ∃ r : ℚ, ops.div (ops.ofInt v) (.finite 800) = .finite r ∧ truncate r = v / 800 := by
  have habs : |v| < 2 ^ 53 := by
    rw [abs_of_nonneg h0]
    norm_num
    omega
  have hv : ops.ofInt v = .finite (v : ℚ) := hops.ofInt_exact v (le_of_lt habs)
  have hbv : IsBinary64 (v : ℚ) := isBinary64_intCast v habs
  have hb800 : IsBinary64 (800 : ℚ) := by
    have := isBinary64_intCast 800 (by norm_num)
    simpa using this
  have hv0 : (0 : ℚ) ≤ v := by exact_mod_cast h0
  have hv1 : (v : ℚ) < 12000 := by exact_mod_cast h1
  have hq0 : (0 : ℚ) ≤ (v : ℚ) / 800 := div_nonneg hv0 (by norm_num)
  have hq1 : (v : ℚ) / 800 < 15 := by
    rw [div_lt_iff₀ (by norm_num)]
    linarith
  have hsmall : |(v : ℚ) / 800| ≤ 2 ^ 1023 := by
    rw [abs_of_nonneg hq0]
    have : (15 : ℚ) ≤ 2 ^ 1023 := by norm_num
    linarith
  obtain ⟨r, hr, hnear⟩ := hops.div_nearest v 800 hbv hb800 (by norm_num) hsmall
  refine ⟨r, by rw [hv, hr], ?_⟩
  -- the quotient and remainder of `v` by 800
  have hk0 : 0 ≤ v / 800 := Int.ediv_nonneg h0 (by norm_num)
  have hdm : 800 * (v / 800) + v % 800 = v := Int.ediv_add_emod v 800
  have ht0 : 0 ≤ v % 800 := Int.emod_nonneg v (by norm_num)
  have ht1 : v % 800 < 800 := Int.emod_lt_of_pos v (by norm_num)
  have hq : (v : ℚ) / 800 = (v / 800 : Int) + ((v % 800 : Int) : ℚ) / 800 := by
    have : (v : ℚ) = 800 * ((v / 800 : Int) : ℚ) + ((v % 800 : Int) : ℚ) := by
      exact_mod_cast hdm.symm
    field_simp
    linarith
  -- a binary64 value within 1/1024 of the quotient
  have hc : IsBinary64 ((⌊(v : ℚ) / 800 * 1024⌋ : ℚ) / 1024) := by
    have h2 : (2 : ℚ) ^ (-10 : Int) = 1 / 1024 := by
      rw [zpow_neg]
      norm_num
    have h3 : (⌊(v : ℚ) / 800 * 1024⌋ : ℚ) / 1024
        = (⌊(v : ℚ) / 800 * 1024⌋ : ℚ) * (2 : ℚ) ^ (-10 : Int) := by
      rw [h2]
      ring
    have h4 : (-1074 : Int) ≤ -10 := by decide
    have h5 : (-10 : Int) ≤ 971 := by decide
    refine ⟨⌊(v : ℚ) / 800 * 1024⌋, -10, ?_, h4, h5, h3⟩
    have hf0 : 0 ≤ ⌊(v : ℚ) / 800 * 1024⌋ := Int.floor_nonneg.mpr (mul_nonneg hq0 (by norm_num))
    have hf1 : ⌊(v : ℚ) / 800 * 1024⌋ < 15360 := by
      rw [Int.floor_lt]
      push_cast
      linarith
    rw [abs_of_nonneg hf0]
    norm_num
    omega
  have hcl : |(⌊(v : ℚ) / 800 * 1024⌋ : ℚ) / 1024 - (v : ℚ) / 800| < 1 / 1024 := by
    have ha := Int.floor_le ((v : ℚ) / 800 * 1024)
    have hb := Int.lt_floor_add_one ((v : ℚ) / 800 * 1024)
    rw [abs_lt]
    constructor <;> linarith
  have hrq : |r - (v : ℚ) / 800| < 1 / 1024 := lt_of_le_of_lt (hnear _ hc) hcl
  rw [abs_lt] at hrq
  by_cases ht : v % 800 = 0
  · -- the quotient is an integer, hence a binary64 value, hence the result
    have hqk : (v : ℚ) / 800 = ((v / 800 : Int) : ℚ) := by
      rw [hq, ht]
      simp
    have hkb : IsBinary64 ((v / 800 : Int) : ℚ) := by
      apply isBinary64_intCast
      rw [abs_of_nonneg hk0]
      norm_num
      omega
    have := hnear _ hkb
    rw [hqk, sub_self, abs_zero] at this
    have hr0 : r - ((v / 800 : Int) : ℚ) = 0 := abs_eq_zero.mp (le_antisymm this (abs_nonneg _))
    apply truncate_eq_of_mem_Ico r (v / 800) hk0 <;> linarith
  · have ht2 : 1 ≤ v % 800 := by omega
    have ht3 : v % 800 ≤ 799 := by omega
    have ht2q : (1 : ℚ) ≤ ((v % 800 : Int) : ℚ) := by exact_mod_cast ht2
    have ht3q : ((v % 800 : Int) : ℚ) ≤ 799 := by exact_mod_cast ht3
    apply truncate_eq_of_mem_Ico r (v / 800) hk0
    · rw [hq] at hrq
      linarith [hrq.1]
    · rw [hq] at hrq
      linarith [hrq.2]


/-- The index `uint64(float64(v) / 800)` of `randBytesSent` is the integer quotient of `v` by
800 when `0 ≤ v < 12000`. -/
theorem toUint64_div_800 (ops : Float64Ops) (hops : ops.Lawful) (v : Int) (h0 : 0 ≤ v)
    (h1 : v < 12000) :
    ops.toUint64 (ops.div (ops.ofInt v) (.finite 800)) = v.toNat / 800 := by
  obtain ⟨r, hr, ht⟩ := div_800_truncate ops hops v h0 h1
  have hk0 : 0 ≤ v / 800 := Int.ediv_nonneg h0 (by norm_num)
  have hk1 : v / 800 < 2 ^ 64 := by
    have : v / 800 ≤ v := Int.ediv_le_self 800 h0
    norm_num
    omega
  rw [hr]
  simp only [Float64Ops.toUint64, ht, hk0, hk1, and_self, if_true]
  omega

/-- Exact rational arithmetic satisfies the assumed facts. -/
theorem exactOps_lawful : exactOps.Lawful where
  ofInt_exact := fun _ _ => rfl
  div_nearest := by
    intro a b _ _ hb _
    refine ⟨a / b, ?_, ?_⟩
    · simp [exactOps, hb]
    · intro c _
      simp

/-- The error branch of a call writes at most an error entry, never a record. -/
theorem info_not_mem_logIfErr {ε : Type} (err : Option ε) (r : Record) :
    LogEntry.info r ∉ logIfErr err := by
  cases err <;> simp [logIfErr]


/-! ## The byte-size sampler -/

/-- C1: for every `bytesSentMax ≥ 0` and every integer source whose draw `Intn(12000)` succeeds
with a value `v` in `[0, 12000)`, `randBytesSent` returns a value `b` with
`0 ≤ b ≤ bytesSentMax` and a nil error; with `bytesSentMax = 0` it returns 0. -/
theorem randBytesSent_within_bounds {σ ε : Type} (ops : Float64Ops) (hops : ops.Lawful)
    (intner : Intner σ ε) (s s' : σ) (v bytesSentMax : Int) (hmax : 0 ≤ bytesSentMax)
    (hdraw : intner.Intn 12000 s = ((v, none), s')) (hv0 : 0 ≤ v) (hv1 : v < 12000) :
    ∃ b : Int,
      randBytesSent ops intner bytesSentMax s factsInit = .ok ((b, none), s', factsInit) ∧
      0 ≤ b ∧ b ≤ bytesSentMax ∧ (bytesSentMax = 0 → b = 0) := by
  have hidx := toUint64_div_800 ops hops v hv0 hv1
  have hk : v.toNat / 800 < 120 := by omega
  have hfm := factorialMemoization_init (v.toNat / 800) hk
  simp only [randBytesSent, hdraw, hidx, hfm]
  split_ifs with h1 h2
  · exact ⟨0, rfl, le_refl 0, hmax, fun _ => rfl⟩
  · exact ⟨bytesSentMax, rfl, hmax, le_refl _, fun h => h⟩
  · refine ⟨_, rfl, by omega, by omega, fun h => by omega⟩

/-- Witness of C1: the draw 5000 with `bytesSentMax = 1000`. -/
theorem randBytesSent_within_bounds_witness :
    ∃ b : Int,
      randBytesSent exactOps (constIntner 5000) 1000 () factsInit
        = .ok ((b, none), (), factsInit) ∧
      0 ≤ b ∧ b ≤ 1000 ∧ ((1000 : Int) = 0 → b = 0) :=
  randBytesSent_within_bounds exactOps exactOps_lawful (constIntner 5000) () () 5000 1000
    (by decide) rfl (by decide) (by decide)


/-- C10: for every draw `v` in `[0, 12000)`, the argument `k = v / 800` that `randBytesSent`
passes to `factorialMemoization` is at most 14, below the table size 120; the call returns the
exact factorial `k!`, which is below `2 ^ 64` and strictly positive; so the index is in range
and the divisor is not zero. -/
theorem randBytesSent_index_safe (ops : Float64Ops) (hops : ops.Lawful) (v : Int)
    (hv0 : 0 ≤ v) (hv1 : v < 12000) :
    ops.toUint64 (ops.div (ops.ofInt v) (.finite 800)) = v.toNat / 800 ∧
    v.toNat / 800 ≤ 14 ∧ v.toNat / 800 < 120 ∧
    factorialMemoization factsInit (v.toNat / 800)
      = .ok ((v.toNat / 800).factorial, factsInit) ∧
    (v.toNat / 800).factorial < 2 ^ 64 ∧ 0 < (v.toNat / 800).factorial := by
  have hk : v.toNat / 800 ≤ 14 := by omega
  have hlt : (v.toNat / 800).factorial < 2 ^ 64 :=
    (factorial_lt_two_pow_64_iff _).mpr (by omega)
  refine ⟨toUint64_div_800 ops hops v hv0 hv1, hk, by omega, ?_, hlt, Nat.factorial_pos _⟩
  rw [factorialMemoization_init _ (by omega), Nat.mod_eq_of_lt hlt]

/-- Witness of C10: the largest draw, 11999, gives index 14. -/
theorem randBytesSent_index_safe_witness :
    exactOps.toUint64 (exactOps.div (exactOps.ofInt 11999) (.finite 800))
      = (11999 : Int).toNat / 800 ∧
    (11999 : Int).toNat / 800 ≤ 14 ∧ (11999 : Int).toNat / 800 < 120 ∧
    factorialMemoization factsInit ((11999 : Int).toNat / 800)
      = .ok (((11999 : Int).toNat / 800).factorial, factsInit) ∧
    ((11999 : Int).toNat / 800).factorial < 2 ^ 64 ∧
    0 < ((11999 : Int).toNat / 800).factorial :=
  randBytesSent_index_safe exactOps exactOps_lawful 11999 (by decide) (by decide)

/-! ## The host name generator -/

/-- C2: for every `siteCount ≥ 1` and every integer source whose draw `Intn(siteCount)`
succeeds with `i` in `[0, siteCount)`, `randHost` returns the decimal representation of `i`
followed by `.example.jp` and a nil error; with `siteCount = 10` the host is one of
`0.example.jp`, ..., `9.example.jp`, and with `siteCount = 1` it is `0.example.jp`. -/
theorem randHost_format {σ ε : Type} (intner : Intner σ ε) (s s' : σ) (siteCount i : Int)
    (hcount : 1 ≤ siteCount) (hdraw : intner.Intn siteCount s = ((i, none), s'))
    (hi0 : 0 ≤ i) (hi1 : i < siteCount) :
    randHost intner siteCount s = ((Nat.repr i.toNat ++ ".example.jp", none), s') ∧
    (siteCount = 10 → (randHost intner siteCount s).1.1 ∈
      ["0.example.jp", "1.example.jp", "2.example.jp", "3.example.jp", "4.example.jp",
       "5.example.jp", "6.example.jp", "7.example.jp", "8.example.jp", "9.example.jp"]) ∧
    (siteCount = 1 → (randHost intner siteCount s).1.1 = "0.example.jp") := by
  have hfmt : formatDecimal i = Nat.repr i.toNat := by
    obtain ⟨n, rfl⟩ := Int.eq_ofNat_of_zero_le hi0
    rfl
  have hres : randHost intner siteCount s = ((Nat.repr i.toNat ++ ".example.jp", none), s') := by
    simp only [randHost, hdraw, hfmt]
  refine ⟨hres, ?_, ?_⟩
  · intro h10
    rw [hres]
    show Nat.repr i.toNat ++ ".example.jp" ∈ _
    subst h10
    clear hres hdraw hfmt
    interval_cases i <;> decide
  · intro h1
    rw [hres]
    show Nat.repr i.toNat ++ ".example.jp" = _
    subst h1
    clear hres hdraw hfmt
    interval_cases i
    decide

/-- Witness of C2: the draw 7 with `siteCount = 10`. -/
theorem randHost_format_witness :
    (randHost (constIntner 7) 10 ()).1.1 = "7.example.jp" :=
  congrArg (fun r => r.1.1)
    (randHost_format (constIntner 7) () () 10 7 (by decide) rfl (by decide) (by decide)).1

/-! ## Error propagation -/

/-- C3: `randHost` and `randBytesSent` fail exactly when their single draw fails, with that
draw's error: `randHost` returns the empty string and `e` if `Intn(siteCount)` fails with `e`,
and a nil error otherwise; `randBytesSent` returns 0 and `e` if `Intn(12000)` fails with `e`,
and a nil error otherwise (the successful draw being in `[0, 12000)`, as the interface of the
integer source promises). -/
theorem rand_errors_propagate {σ ε : Type} (ops : Float64Ops) (hops : ops.Lawful)
    (intner : Intner σ ε) (siteCount bytesSentMax : Int) (s : σ) :
    (∀ e, (intner.Intn siteCount s).1.2 = some e →
      randHost intner siteCount s = (("", some e), (intner.Intn siteCount s).2)) ∧
    ((intner.Intn siteCount s).1.2 = none → (randHost intner siteCount s).1.2 = none) ∧
    (∀ e, (intner.Intn 12000 s).1.2 = some e →
      ∀ facts, randBytesSent ops intner bytesSentMax s facts
        = .ok ((0, some e), (intner.Intn 12000 s).2, facts)) ∧
    ((intner.Intn 12000 s).1.2 = none →
      0 ≤ (intner.Intn 12000 s).1.1 → (intner.Intn 12000 s).1.1 < 12000 →
      ∃ b, randBytesSent ops intner bytesSentMax s factsInit
        = .ok ((b, none), (intner.Intn 12000 s).2, factsInit)) := by
  refine ⟨?_, ?_, ?_, ?_⟩
  · intro e he
    simp only [randHost, he]
  · intro he
    simp only [randHost, he]
  · intro e he facts
    simp only [randBytesSent, he]
  · intro he h0 h1
    have hidx := toUint64_div_800 ops hops _ h0 h1
    have hfm := factorialMemoization_init ((intner.Intn 12000 s).1.1.toNat / 800) (by omega)
    simp only [randBytesSent, he, hidx, hfm]
    split_ifs
    · exact ⟨_, rfl⟩
    · exact ⟨_, rfl⟩
    · exact ⟨_, rfl⟩

/-- Witness of C3: a source whose every draw fails. -/
theorem rand_errors_propagate_witness :
    randHost (failingIntner "no entropy") 10 () = (("", some "no entropy"), ()) ∧
    randBytesSent exactOps (failingIntner "no entropy") 1000 () factsInit
      = .ok ((0, some "no entropy"), (), factsInit) :=
  ⟨(rand_errors_propagate exactOps exactOps_lawful (failingIntner "no entropy") 10 1000 ()).1
      "no entropy" rfl,
    (rand_errors_propagate exactOps exactOps_lawful (failingIntner "no entropy") 10 1000 ()).2.2.1
      "no entropy" rfl factsInit⟩


/-! ## The factorial table -/

/-- C5: `factorialMemoization(0) = 1`, and for every `n` with `0 < n < 120`,
`factorialMemoization(n) = n * factorialMemoization(n - 1)` in `uint64` arithmetic; for every
`n` in `0..119` the call returns, without an out-of-range table index. -/
theorem factorialMemoization_recurrence :
    factorialMemoization factsInit 0 = .ok (1, factsInit) ∧
    ∀ n : Nat, 0 < n → n < 120 →
      ∃ r : Nat, factorialMemoization factsInit (n - 1) = .ok (r, factsInit) ∧
        factorialMemoization factsInit n = .ok (n * r % 2 ^ 64, factsInit) := by
  refine ⟨factorialMemoization_init 0 (by omega), ?_⟩
  intro n h0 h1
  refine ⟨(n - 1).factorial % 2 ^ 64, factorialMemoization_init (n - 1) (by omega), ?_⟩
  rw [factorialMemoization_init n h1]
  obtain ⟨m, rfl⟩ : ∃ m, n = m + 1 := ⟨n - 1, by omega⟩
  simp only [Nat.add_sub_cancel, Nat.factorial_succ, Nat.mul_mod_mod]

/-- Witness of C5: the step from 20 to 21, the first one whose product wraps. -/
theorem factorialMemoization_recurrence_witness :
    ∃ r : Nat, factorialMemoization factsInit (21 - 1) = .ok (r, factsInit) ∧
      factorialMemoization factsInit 21 = .ok (21 * r % 2 ^ 64, factsInit) :=
  factorialMemoization_recurrence.2 21 (by decide) (by decide)

/-- C8, as stated, fails: `factorialMemoization(21)` is not `21!`, which does not fit in a
`uint64`. -/
theorem factorialMemoization_21_ne_factorial :
    ¬ ∀ n : Nat, n ≤ 119 →
      ∃ facts' : Facts, factorialMemoization factsInit n = .ok (n.factorial, facts') := by
  intro h
  obtain ⟨facts', h21⟩ := h 21 (by decide)
  rw [factorialMemoization_init 21 (by decide)] at h21
  have h1 : Nat.factorial 21 % 2 ^ 64 = Nat.factorial 21 := by
    injection h21 with h21
    exact (Prod.mk.inj h21).1
  have h2 : ¬ Nat.factorial 21 % 2 ^ 64 = Nat.factorial 21 := by decide
  exact h2 h1

/-- C8, amended: for every `n` in `0..119`, `factorialMemoization(n)` is `n!` reduced modulo
`2 ^ 64`; it is `n!` itself exactly when `n ≤ 20`. -/
theorem factorialMemoization_eq_factorial_mod (n : Nat) (hn : n ≤ 119) :
    ∃ r : Nat, factorialMemoization factsInit n = .ok (r, factsInit) ∧
      r = n.factorial % 2 ^ 64 ∧ (r = n.factorial ↔ n ≤ 20) := by
  refine ⟨n.factorial % 2 ^ 64, factorialMemoization_init n (by omega), rfl, ?_⟩
  rw [← factorial_lt_two_pow_64_iff]
  constructor
  · intro h
    rw [← h]
    exact Nat.mod_lt _ (by positivity)
  · intro h
    exact Nat.mod_eq_of_lt h

/-- Witness of C8, amended: the argument 20, the last one whose factorial fits. -/
theorem factorialMemoization_eq_factorial_mod_witness :
    ∃ r : Nat, factorialMemoization factsInit 20 = .ok (r, factsInit) ∧
      r = Nat.factorial 20 % 2 ^ 64 ∧ (r = Nat.factorial 20 ↔ 20 ≤ 20) :=
  factorialMemoization_eq_factorial_mod 20 (by decide)

/-- C9 at the failing input: from the all-zero table, `factorialMemoization(5)` returns 120 and
leaves the table all zero, so `facts[5]` is 0 after the call, not the returned value. -/
theorem factorialMemoization_leaves_table_empty :
    ∃ facts' : Facts, factorialMemoization factsInit 5 = .ok (120, facts') ∧
      facts' ⟨5, by decide⟩ = 0 ∧ facts' = factsInit :=
  ⟨factsInit, factorialMemoization_init 5 (by decide), rfl, rfl⟩

/-! ## The Gaussian sampler -/

/-- The integer part of the binary64 value nearest to 0.6 is 0. -/
theorem truncate_sixTenths : truncate sixTenths = 0 := by
  have hfl : ⌊sixTenths⌋ = 0 := by
    rw [Int.floor_eq_iff]
    norm_num [sixTenths]
  have hpos : (0 : ℚ) ≤ sixTenths := by norm_num [sixTenths]
  simp [truncate, hpos, hfl]

/-- C6: for every `min ≤ max`, every mean and standard deviation and every value of the
normal draw, `normRand` returns an integer `r` with `min ≤ r ≤ max`. -/
theorem normRand_within_bounds (ops : Float64Ops) (draw : Float64) (min max : Int)
    (mean stdDev : Float64) (h : min ≤ max) :
    min ≤ normRand ops draw min max mean stdDev ∧ normRand ops draw min max mean stdDev ≤ max := by
  simp only [normRand]
  split_ifs <;> omega

/-- Witness of C6: a NaN draw clamped into `[0, 10]`. -/
theorem normRand_within_bounds_witness :
    0 ≤ normRand exactOps .nan 0 10 (.finite 100000) (.finite 10000) ∧
    normRand exactOps .nan 0 10 (.finite 100000) (.finite 10000) ≤ 10 :=
  normRand_within_bounds exactOps .nan 0 10 (.finite 100000) (.finite 10000) (by decide)

/-- C7, as stated, fails: with `min = 0`, `max = 10`, mean 0, standard deviation 1 and the
draw 0.6, rounding to nearest gives 1 but `normRand` returns 0. -/
theorem normRand_truncates_sixTenths :
    exactOps.add (exactOps.mul (.finite sixTenths) (.finite 1)) (.finite 0) = .finite sixTenths ∧
    normRand exactOps (.finite sixTenths) 0 10 (.finite 0) (.finite 1) = 0 ∧
    normRandSpec 0 10 sixTenths = 1 ∧
    normRand exactOps (.finite sixTenths) 0 10 (.finite 0) (.finite 1)
      ≠ normRandSpec 0 10 sixTenths := by
  have htr : truncate sixTenths = 0 := truncate_sixTenths
  have hcode : normRand exactOps (.finite sixTenths) 0 10 (.finite 0) (.finite 1) = 0 := by
    simp [normRand, exactOps, Float64Ops.toInt, htr]
  have hspec : normRandSpec 0 10 sixTenths = 1 := by
    have : ⌊sixTenths + 1 / 2⌋ = 1 := by
      rw [Int.floor_eq_iff]
      norm_num [sixTenths]
    show Max.max (0 : Int) (Min.min ⌊sixTenths + 1 / 2⌋ 10) = 1
    rw [this]
    decide
  refine ⟨by simp [exactOps], hcode, hspec, ?_⟩
  rw [hcode, hspec]
  decide

/-- C7, amended: `normRand` discards the fraction of the drawn value
`d = draw * stdDev + mean` (truncation toward zero) before clamping: for every `min ≤ max` and
every finite `d` whose integer part is an `int`, it returns `clamp(trunc(d), min, max)`. -/
theorem normRand_eq_clamp_truncate (ops : Float64Ops) (draw : Float64) (min max : Int)
    (mean stdDev : Float64) (d : ℚ) (h : min ≤ max)
    (hd : ops.add (ops.mul draw stdDev) mean = .finite d)
    (hlo : -(2 ^ 63) ≤ truncate d) (hhi : truncate d < 2 ^ 63) :
    normRand ops draw min max mean stdDev = clamp (truncate d) min max := by
  simp only [normRand, hd, Float64Ops.toInt, hlo, hhi, and_self, if_true, clamp]
  split_ifs with h1 h2
  · rw [max_eq_left]
    exact le_trans (min_le_left _ _) (le_of_lt h1)
  · rw [min_eq_right (le_of_lt h2), max_eq_right h]
  · rw [min_eq_left (not_lt.mp h2), max_eq_right (not_lt.mp h1)]

/-- Witness of C7, amended: the draw 0.6 with mean 0 and standard deviation 1. -/
theorem normRand_eq_clamp_truncate_witness :
    normRand exactOps (.finite sixTenths) 0 10 (.finite 0) (.finite 1)
      = clamp (truncate sixTenths) 0 10 :=
  normRand_eq_clamp_truncate exactOps (.finite sixTenths) 0 10 (.finite 0) (.finite 1)
    sixTenths (by decide) (by simp [exactOps])
    (by rw [truncate_sixTenths]; decide) (by rw [truncate_sixTenths]; decide)


/-! ## The record-emission loop -/

/-- When the three chosen items have their expected dynamic types, the iteration writes a record
and goes on, also when the host draw or the byte-count draw failed: the failed field then holds
the empty string or 0. -/
theorem loopBody_emits_record {σ ε : Type} (g : Generator σ ε) (s s5 : σ) (facts facts5 : Facts)
    (a c : String) (b bytesSent : Int) (err : Option ε)
    (h1 : (schemeDraw g s).1.1 = .str a) (h2 : (statusDraw g s).1.1 = .int b)
    (h3 : (cacheDraw g s).1.1 = .str c)
    (h5 : bytesSentDraw g s facts = .ok ((bytesSent, err), s5, facts5)) :
    (∃ log, loopBody g s facts =
      (log ++ [.info ⟨(hostDraw g s).1.1, (hostDraw g s).1.1, a, b, bytesSent, c⟩],
        .ok (s5, facts5))) ∧
    ((hostDraw g s).1.2 ≠ none → (hostDraw g s).1.1 = "") ∧
    (err ≠ none → bytesSent = 0) := by
  refine ⟨?_, ?_, ?_⟩
  · simp only [loopBody, h5, h1, h2, h3, Iface.assertString, Iface.assertInt]
    exact ⟨_, rfl⟩
  · intro hne
    simp only [hostDraw, randHost] at hne ⊢
    split
    · rfl
    · next heq => simp [heq] at hne
  · intro hne
    simp only [bytesSentDraw, randBytesSent] at h5
    split at h5
    · injection h5 with h5
      exact ((Prod.mk.inj (Prod.mk.inj h5).1).1).symm
    · split at h5
      · simp at h5
      · split_ifs at h5 <;>
        · injection h5 with h5
          have := (Prod.mk.inj (Prod.mk.inj h5).1).2
          exact absurd this.symm hne

/-- C4 at the failing inputs: whenever one of the three choosers returns the nil item (as a
failed `Choose` does), the iteration ends in a panic and writes no record. -/
theorem loopBody_nil_item_panics {σ ε : Type} (g : Generator σ ε) (s : σ) (facts : Facts)
    (h : (schemeDraw g s).1.1 = .nil ∨ (statusDraw g s).1.1 = .nil ∨
      (cacheDraw g s).1.1 = .nil) :
    (∃ p, (loopBody g s facts).2 = .error p) ∧
    ∀ r, LogEntry.info r ∉ (loopBody g s facts).1 := by
  have hlog4 : ∀ r, LogEntry.info r ∉
      logIfErr (schemeDraw g s).1.2 ++ logIfErr (statusDraw g s).1.2 ++
        logIfErr (cacheDraw g s).1.2 ++ logIfErr (hostDraw g s).1.2 := by
    intro r
    simp [info_not_mem_logIfErr]
  have hassert : ∀ (a : String) (b : Int) (c : String),
      ¬ ((schemeDraw g s).1.1.assertString = .ok a ∧ (statusDraw g s).1.1.assertInt = .ok b ∧
        (cacheDraw g s).1.1.assertString = .ok c) := by
    intro a b c ⟨h1, h2, h3⟩
    rcases h with h | h | h
    · rw [h] at h1
      simp [Iface.assertString] at h1
    · rw [h] at h2
      simp [Iface.assertInt] at h2
    · rw [h] at h3
      simp [Iface.assertString] at h3
  unfold loopBody
  cases hb : bytesSentDraw g s facts with
  | error p => exact ⟨⟨p, rfl⟩, hlog4⟩
  | ok res =>
    obtain ⟨⟨bytesSent, err⟩, s5, facts5⟩ := res
    simp only
    split
    · next a b c h1 h2 h3 => exact absurd ⟨h1, h2, h3⟩ (hassert a b c)
    · refine ⟨⟨_, rfl⟩, ?_⟩
      intro r
      have := hlog4 r
      simp only [List.mem_append, not_or] at this ⊢
      exact ⟨this, info_not_mem_logIfErr err r⟩

/-- Witness of C4's failing input: the scheme chooser fails and returns the nil item. -/
theorem loopBody_nil_item_panics_witness :
    (∃ p, (loopBody schemeFailure () factsInit).2 = .error p) ∧
    ∀ r, LogEntry.info r ∉ (loopBody schemeFailure () factsInit).1 :=
  loopBody_nil_item_panics schemeFailure () factsInit (Or.inl rfl)

end AccessLog
